import Mathlib

/-!
Formal model of `src/webapp/src/space.ts` (the `Space` class): the
request/response correlator (`wsCall`), the update exchange
(`pushUpdates` / `pullUpdates`), the page registry kept in `allPages`,
and the index facade.  JavaScript values are modelled by `JSVal`,
machine behaviour (truthiness, `Set` semantics, property access) is
made explicit.
-/

/-- Untyped JavaScript values, as far as the protocol payloads need them.
Numbers are modelled as integers (no floating point is involved in the
control flow we verify). -/
inductive JSVal where
  | null
  | undefined
  | bool (b : Bool)
  | num (n : Int)
  | str (s : String)
  | arr (xs : List JSVal)
  | obj (fields : List (String × JSVal))

/-- JavaScript truthiness: `null`, `undefined`, `false`, `0` and `""` are
falsy; every other value (including arrays and objects) is truthy. -/
def JSVal.truthy : JSVal → Bool
  | .null => false
  | .undefined => false
  | .bool b => b
  | .num n => n != 0
  | .str s => s != ""
  | .arr _ => true
  | .obj _ => true

/-! Part 1: page registry (`allPages`, constructor event handlers, `listPages`) -/

/-- Metadata object of a page.  `oid` models JavaScript object identity:
`allPages` is a JS `Set`, whose membership test is reference equality
(SameValueZero), not structural comparison of the `name` field. -/
structure PageMeta where
  oid : Nat
  name : String
deriving DecidableEq

/-- JS `Set.prototype.add`: appends the element unless the very same
object is already present. -/
def setAdd (s : List PageMeta) (m : PageMeta) : List PageMeta :=
  if m ∈ s then s else s ++ [m]

/-- JS `new Set(iterable)`: inserts the elements in order, deduplicating
by object identity. -/
def newSet (pages : List PageMeta) : List PageMeta :=
  pages.foldl setAdd []

/-- State owned by the page-registry part of `Space`: the `allPages` set
and the log of `pageListUpdated` emissions (each carrying the set at
emission time). -/
structure RegistryState where
  allPages : List PageMeta
  updatesEmitted : List (List PageMeta)

/-- Registry-updating events, exactly the three paths in the constructor
of `Space` that touch `allPages`. -/
inductive RegOp where
  | listPagesResp (pages : List PageMeta)
  | pageCreated (meta : PageMeta)
  | pageDeleted (name : String)

/-- One registry event, as handled in the constructor (lines 43-62):
the `listPages` continuation replaces `allPages` by `new Set(pages)`;
`pageCreated` adds `meta` to the set; `pageDeleted` removes every entry
whose `name` matches.  Each handler then emits one `pageListUpdated`
carrying the current set. -/
def regStep (s : RegistryState) : RegOp → RegistryState
  | .listPagesResp pages =>
    let aps := newSet pages
    { allPages := aps, updatesEmitted := s.updatesEmitted ++ [aps] }
  | .pageCreated meta =>
    let aps := setAdd s.allPages meta
    { allPages := aps, updatesEmitted := s.updatesEmitted ++ [aps] }
  | .pageDeleted name =>
    let aps := s.allPages.filter (fun m => m.name != name)
    { allPages := aps, updatesEmitted := s.updatesEmitted ++ [aps] }

/-- Initial registry state: `allPages = new Set()` (line 26), nothing
emitted yet. -/
def regInit : RegistryState := { allPages := [], updatesEmitted := [] }

/-- Processes a sequence of registry events from the initial state. -/
def runReg (ops : List RegOp) : RegistryState :=
  ops.foldl regStep regInit

/-- The method `listPages` (lines 111-113): `Array.from(this.allPages)`,
a snapshot of the current set, no network call. -/
def listPagesSnapshot (s : RegistryState) : List PageMeta :=
  s.allPages

/-- Per-name uniqueness of a page list, as a Boolean predicate. -/
def namesUnique (l : List PageMeta) : Bool :=
  decide (l.map PageMeta.name).Nodup

/-! Part 2: update exchange (`pushUpdates` / `pullUpdates` serialization) -/

/-- Modelled from the spec: the external change-set library
(the `ChangeSet` of `@codemirror/state`, out of scope per §1) is represented
by its JSON serialization; `toJSON` and `fromJSON` are mutually
inverse. -/
structure ChangeSet where
  json : JSVal

def ChangeSet.toJSON (c : ChangeSet) : JSVal := c.json

def ChangeSet.fromJSON (j : JSVal) : ChangeSet := ⟨j⟩

/-- A state effect as the code uses it: a wrapper exposing `.value`. -/
structure StateEff where
  value : JSVal

/-- Modelled from the spec: `cursorEffect.of(value)` (the external
cursor-effect constructor from `./cursorEffect`) wraps a raw value into
an effect whose `.value` is that value. -/
def cursorEffectOf (v : JSVal) : StateEff := ⟨v⟩

/-- A local update as handled by `pushUpdates`/`pullUpdates`: client
identifier, change set, and an optional list of effects. -/
structure Upd where
  clientID : String
  changes : ChangeSet
  effects : Option (List StateEff)

/-- An update in wire form.  The object literal built by `pushUpdates`
has exactly the properties `clientID`, `changes` and `cursors`; reading
any other property (such as `effects`, which `pullUpdates` reads)
yields `undefined`, modelled by the `effects` field being `none` on
every pushed object. -/
structure WireUpdate where
  clientID : String
  changes : JSVal
  cursors : Option (List JSVal)
  effects : Option (List JSVal)

/-- The per-update serialization in `pushUpdates` (lines 84-88):
`{ clientID: u.clientID, changes: u.changes.toJSON(),
   cursors: u.effects?.map((e) => e.value) }`.
No `effects` property is written. -/
def serializeUpdate (u : Upd) : WireUpdate :=
  { clientID := u.clientID
    changes := u.changes.toJSON
    cursors := u.effects.map (fun es => es.map StateEff.value)
    effects := none }

/-- The per-update deserialization in `pullUpdates` (lines 102-106):
`{ changes: ChangeSet.fromJSON(u.changes),
   effects: u.effects?.map((e) => cursorEffect.of(e.value)),
   clientID: u.clientID }`.
Note it reads the `effects` property of the wire object, not
`cursors`. -/
def deserializeUpdate (w : WireUpdate) : Upd :=
  { changes := ChangeSet.fromJSON w.changes
    effects := w.effects.map (fun es => es.map cursorEffectOf)
    clientID := w.clientID }

/-! Part 3: index facade: `indexBatchSet` -/

/-- A key/value pair, the `KV` type of the source. -/
structure KV where
  key : String
  value : JSVal

/-- An emitted correlated request: event name, request identifier and
the arguments that follow the identifier. -/
structure Req where
  eventName : String
  reqId : Nat
  args : List JSVal

/-- The request emitted by `indexSet(pageName, key, value)`
(lines 146-148): `wsCall("index.set", pageName, key, value)`, so the
arguments after the request identifier are the page name, the key and
the value. -/
def indexSetReq (pageName : String) (kv : KV) : String × List JSVal :=
  ("index.set", [JSVal.str pageName, JSVal.str kv.key, kv.value])

/-- Sequential execution of the loop of `indexBatchSet` (lines 150-155),
with the per-call server responses given by the oracle `resp`
(the pair is the `(err, result)` fields of the response; the call made
for the i-th entry receives `resp i`).  Each iteration awaits one `indexSet`: it
issues the request, and the correlator rejects when `err` is truthy
(see `wsCall`, lines 65-77), which aborts the loop; otherwise the entry
is acknowledged and the loop continues. -/
def indexBatchSetGo (resp : Nat → JSVal × JSVal) (pageName : String) :
    List KV → Nat → List (String × List JSVal) → List KV →
    List (String × List JSVal) × List KV × Except JSVal Unit
  | [], _, issued, acked => (issued, acked, .ok ())
  | kv :: rest, i, issued, acked =>
    let issued' := issued ++ [indexSetReq pageName kv]
    let (err, _result) := resp i
    if err.truthy then
      (issued', acked, .error err)
    else
      indexBatchSetGo resp pageName rest (i + 1) issued' (acked ++ [kv])

/-- `indexBatchSet(pageName, kvs)` under response oracle `resp`:
returns the requests issued, the entries acknowledged by the server,
and the overall outcome. -/
def indexBatchSet (resp : Nat → JSVal × JSVal) (pageName : String)
    (kvs : List KV) :
    List (String × List JSVal) × List KV × Except JSVal Unit :=
  indexBatchSetGo resp pageName kvs 0 [] []

/-! Part 4: request correlator (`wsCall`, lines 65-77) -/

/-- The response event name used by `wsCall`:
`` `${eventName}Resp${this.reqId}` ``. -/
def respKey (eventName : String) (id : Nat) : String :=
  eventName ++ "Resp" ++ Nat.repr id

/-- One settled promise outcome: `resolve(result)` or `reject(err)`. -/
inductive Settled where
  | resolved (v : JSVal)
  | rejected (e : JSVal)

/-- The state of a `Space` instance as far as `wsCall` and its callers
are concerned.

* `socket` — whether a transport is attached (`this.socket` non-null);
* `reqId` — the `reqId` counter field (line 25, starts at 0);
* `listeners` — the live one-shot listeners registered with
  `socket.once`, as pairs of the response event name and the index of
  the `wsCall` invocation (= the promise) that registered them;
* `emitted` — the log of emitted requests, in emission order;
* `calls` — how many `wsCall` invocations have happened (each one is a
  distinct promise, identified by its index);
* `settled` — the log of promise settlements: the call index whose
  promise was settled, the index of the emitted request whose response
  event triggered the settlement, and the outcome. -/
structure SpaceState where
  socket : Bool
  reqId : Nat
  listeners : List (String × Nat)
  emitted : List Req
  calls : Nat
  settled : List (Nat × Nat × Settled)

/-- `wsCall(eventName, ...args)` (lines 65-77): increments `reqId`,
registers a one-shot listener for `respKey eventName reqId` (before
emitting), then emits the request `(eventName, reqId, ...args)`.  The
new promise is call number `s.calls`. -/
def wsCall (s : SpaceState) (eventName : String) (args : List JSVal) :
    SpaceState :=
  let id := s.reqId + 1
  { socket := s.socket
    reqId := id
    listeners := s.listeners ++ [(respKey eventName id, s.calls)]
    emitted := s.emitted ++ [⟨eventName, id, args⟩]
    calls := s.calls + 1
    settled := s.settled }

/-- Arrival of a response event named `k` with payload `(err, result)`:
every one-shot listener registered for `k` fires once and is removed;
the handler (lines 69-75) rejects the promise with `err` when `err` is
truthy and resolves it with `result` otherwise.  The argument `src` is
bookkeeping only (it records which emitted request this response
answers, for stating correlation); it does not influence behaviour. -/
def deliver (s : SpaceState) (k : String) (src : Nat)
    (err result : JSVal) : SpaceState :=
  let fired := s.listeners.filter (fun l => l.1 == k)
  { s with
    listeners := s.listeners.filter (fun l => !(l.1 == k))
    settled := s.settled ++ fired.map (fun l =>
      (l.2, src, if err.truthy then Settled.rejected err
                 else Settled.resolved result)) }

/-- `pushUpdates(pageName, version, fullUpdates)` (lines 79-93): when a
transport is attached, serializes the updates and issues one correlated
`page.pushUpdates` request; otherwise returns `false` without emitting
anything.  The outcome is either the immediate `false` return or the
promise (call index) of the correlated request. -/
inductive PushOutcome where
  | noSocket
  | requested (callIdx : Nat)

/-- Encoding of an optional array argument: an absent effect list makes
`u.effects?.map(...)` evaluate to `undefined`. -/
def optArr : Option (List JSVal) → JSVal
  | none => JSVal.undefined
  | some l => JSVal.arr l

/-- The JS object actually placed in the `page.pushUpdates` argument
list for one update: properties `clientID`, `changes`, `cursors`. -/
def WireUpdate.toJS (w : WireUpdate) : JSVal :=
  JSVal.obj [("clientID", JSVal.str w.clientID),
             ("changes", w.changes),
             ("cursors", optArr w.cursors)]

def pushUpdates (s : SpaceState) (pageName : String) (version : Int)
    (fullUpdates : List Upd) : SpaceState × PushOutcome :=
  if s.socket then
    let updates := fullUpdates.map serializeUpdate
    (wsCall s "page.pushUpdates"
      [JSVal.str pageName, JSVal.num version,
       JSVal.arr (updates.map WireUpdate.toJS)],
     .requested s.calls)
  else
    (s, .noSocket)

/-- `indexDeletePrefixForPage(pageName, keyPrefix)` (lines 174-176):
the body is `await this.wsCall("index.deletePrefixForPage", keyPrefix)`
— the `pageName` parameter is not passed along. -/
def indexDeletePrefixForPage (s : SpaceState) (_pageName : String)
    (keyPfx : String) : SpaceState :=
  wsCall s "index.deletePrefixForPage" [JSVal.str keyPfx]

/-! Part 5: session traces -/

/-- One step of a session: a generic correlated call (any of the
`wsCall` wrappers), `openPage` (which performs an extra `this.reqId++`
on line 116 before its `wsCall`), `pushUpdates`, or the arrival of the
response to the `j`-th emitted request.  The response to request
`⟨e, id, args⟩` is the server emitting the event `respKey e id` with
payload `(err, result)`; an index with no emitted request produces no
event. -/
inductive TraceOp where
  | call (eventName : String) (args : List JSVal)
  | openPage (name : String)
  | push (pageName : String) (version : Int) (fullUpdates : List Upd)
  | respond (j : Nat) (err result : JSVal)

def stepOp (s : SpaceState) : TraceOp → SpaceState
  | .call e args => wsCall s e args
  | .openPage name =>
    wsCall { s with reqId := s.reqId + 1 } "page.openPage"
      [JSVal.str name]
  | .push pageName version fullUpdates =>
    (pushUpdates s pageName version fullUpdates).1
  | .respond j err result =>
    match s.emitted.get? j with
    | some r => deliver s (respKey r.eventName r.reqId) j err result
    | none => s

/-- The state of a freshly allocated `Space` object before the
constructor body runs: counter at 0, nothing registered. -/
def initState : SpaceState :=
  { socket := true, reqId := 0, listeners := [], emitted := [],
    calls := 0, settled := [] }

/-- The state right after the constructor (lines 28-63) has issued its
initial `wsCall("page.listPages")`. -/
def ctorState : SpaceState :=
  wsCall initState "page.listPages" []

/-- A whole session: the constructor followed by any interleaving of
calls and response arrivals. -/
def runTrace (ops : List TraceOp) : SpaceState :=
  ops.foldl stepOp ctorState

/-! Part 6: correctness checkers (decidable, evaluated on concrete traces) -/

/-- Correlation correctness of a state: every settlement settles the
promise of exactly the call that emitted the request being answered
(call index = answered request index, since call `c` emits request
`c`), and no promise is settled more than once. -/
def correlated (s : SpaceState) : Bool :=
  s.settled.all (fun e => e.1 == e.2.1) &&
  decide (s.settled.map (fun e => e.1)).Nodup

/-- Request-identifier discipline of a state: the identifiers carried
by emitted requests are strictly increasing, all above zero, and
pairwise distinct. -/
def idsOk (s : SpaceState) : Bool :=
  decide ((s.emitted.map Req.reqId).Pairwise (· < ·)) &&
  s.emitted.all (fun r => 0 < r.reqId) &&
  decide (s.emitted.map Req.reqId).Nodup

/-! Part 7: injectivity of the response event name

`wsCall` names the response event by string concatenation
(`respKey`).  Correlation correctness rests on distinct request
identifiers producing distinct event names, which holds because the
identifier is rendered as a decimal numeral: the numeral part of the
key is recoverable as its maximal digit suffix. -/

/-- Numeric value of a decimal digit character. -/
def digitVal (c : Char) : Nat := c.toNat - 48

/-- Decimal reading of a digit string. -/
def parseDigits (l : List Char) : Nat :=
  l.foldl (fun a c => 10 * a + digitVal c) 0

theorem digitVal_digitChar : ∀ d, d < 10 → digitVal (Nat.digitChar d) = d := by
  decide

theorem digitChar_isDigit : ∀ d, d < 10 → (Nat.digitChar d).isDigit = true := by
  decide

/-- The accumulator of `Nat.toDigitsCore` is simply appended on the
right of the digits produced. -/
theorem toDigitsCore_acc (fuel : Nat) :
    ∀ (n : Nat) (ds : List Char),
      Nat.toDigitsCore 10 fuel n ds = Nat.toDigitsCore 10 fuel n [] ++ ds := by
  induction fuel with
  | zero => intro n ds; simp [Nat.toDigitsCore]
  | succ f ih =>
    intro n ds
    simp only [Nat.toDigitsCore]
    by_cases h : n / 10 = 0
    · simp [h]
    · simp only [h, if_false]
      rw [ih (n / 10) (Nat.digitChar (n % 10) :: ds),
        ih (n / 10) [Nat.digitChar (n % 10)]]
      simp

/-- Every character produced by `Nat.toDigitsCore` in base 10 is a
decimal digit (given a digit accumulator). -/
theorem toDigitsCore_isDigit (fuel : Nat) :
    ∀ (n : Nat) (ds : List Char), (∀ c ∈ ds, c.isDigit = true) →
      ∀ c ∈ Nat.toDigitsCore 10 fuel n ds, c.isDigit = true := by
  induction fuel with
  | zero => intro n ds hds; simpa [Nat.toDigitsCore] using hds
  | succ f ih =>
    intro n ds hds
    simp only [Nat.toDigitsCore]
    have hd : (Nat.digitChar (n % 10)).isDigit = true :=
      digitChar_isDigit _ (Nat.mod_lt _ (by decide))
    by_cases h : n / 10 = 0
    · simp only [h, if_true]
      intro c hc
      rcases List.mem_cons.mp hc with rfl | hc
      · exact hd
      · exact hds c hc
    · simp only [h, if_false]
      refine ih (n / 10) _ ?_
      intro c hc
      rcases List.mem_cons.mp hc with rfl | hc
      · exact hd
      · exact hds c hc

/-- Decimal reading inverts `Nat.toDigitsCore` when the fuel is
adequate. -/
theorem parseDigits_toDigitsCore (fuel : Nat) :
    ∀ n : Nat, n < fuel →
      parseDigits (Nat.toDigitsCore 10 fuel n []) = n := by
  induction fuel with
  | zero => intro n hn; omega
  | succ f ih =>
    intro n hn
    simp only [Nat.toDigitsCore]
    by_cases h : n / 10 = 0
    · have hlt : n < 10 := by omega
      simp only [h, if_true]
      have hmod : n % 10 = n := Nat.mod_eq_of_lt hlt
      simp [parseDigits, hmod, digitVal_digitChar n hlt]
    · have h10 : 10 ≤ n := by
        rcases Nat.lt_or_ge n 10 with h' | h'
        · exact absurd (Nat.div_eq_of_lt h') h
        · exact h'
      have hdf : n / 10 < f := by
        have h1 : n / 10 < n := Nat.div_lt_self (by omega) (by decide)
        omega
      simp only [h, if_false]
      rw [toDigitsCore_acc f (n / 10) [Nat.digitChar (n % 10)]]
      have hfold : parseDigits
          (Nat.toDigitsCore 10 f (n / 10) [] ++ [Nat.digitChar (n % 10)]) =
          10 * parseDigits (Nat.toDigitsCore 10 f (n / 10) []) +
            digitVal (Nat.digitChar (n % 10)) := by
        simp [parseDigits, List.foldl_append]
      rw [hfold, ih (n / 10) hdf,
        digitVal_digitChar _ (Nat.mod_lt _ (by decide))]
      omega

/-- Decimal reading inverts `Nat.toDigits 10`. -/
theorem parseDigits_toDigits (n : Nat) :
    parseDigits (Nat.toDigits 10 n) = n := by
  rw [Nat.toDigits]
  exact parseDigits_toDigitsCore (n + 1) n (Nat.lt_succ_self n)

/-- All characters of the decimal rendering are digits. -/
theorem toDigits_isDigit (n : Nat) :
    ∀ c ∈ Nat.toDigits 10 n, c.isDigit = true := by
  rw [Nat.toDigits]
  exact toDigitsCore_isDigit (n + 1) n [] (by intro c hc; cases hc)

/-- `takeWhile` of a list made of a satisfying block, a failing
element, and a tail, is exactly the block. -/
theorem takeWhile_block {α : Type} {p : α → Bool} :
    ∀ (xs : List α) (y : α) (zs : List α), (∀ x ∈ xs, p x = true) →
      p y = false → (xs ++ y :: zs).takeWhile p = xs := by
  intro xs y zs hxs hy
  induction xs with
  | nil => simpa using @List.takeWhile_cons_of_neg _ p y zs (by simp [hy])
  | cons x xs ih =>
    have hx : p x = true := hxs x (List.mem_cons_self _ _)
    simp only [List.cons_append, List.takeWhile_cons_of_pos hx]
    rw [ih (fun a ha => hxs a (List.mem_cons_of_mem _ ha))]

/-- The decimal numeral at the end of a response key is recoverable,
so keys built from distinct request identifiers differ: a key
determines its identifier. -/
theorem respKey_id_inj {e₁ e₂ : String} {n₁ n₂ : Nat}
    (h : respKey e₁ n₁ = respKey e₂ n₂) : n₁ = n₂ := by
  have hdata : e₁.data ++ ('R' :: 'e' :: 's' :: 'p' :: Nat.toDigits 10 n₁) =
      e₂.data ++ ('R' :: 'e' :: 's' :: 'p' :: Nat.toDigits 10 n₂) := by
    have := congrArg String.data h
    simpa [respKey, Nat.repr, List.asString, String.data_append] using this
  have hrev : (Nat.toDigits 10 n₁).reverse ++
      ('p' :: 's' :: 'e' :: 'R' :: e₁.data.reverse) =
      (Nat.toDigits 10 n₂).reverse ++
      ('p' :: 's' :: 'e' :: 'R' :: e₂.data.reverse) := by
    have := congrArg List.reverse hdata
    simpa using this
  have htw : (Nat.toDigits 10 n₁).reverse = (Nat.toDigits 10 n₂).reverse := by
    have h₁ := takeWhile_block (p := Char.isDigit)
      ((Nat.toDigits 10 n₁).reverse) 'p'
      ('s' :: 'e' :: 'R' :: e₁.data.reverse)
      (by intro c hc; exact toDigits_isDigit n₁ c (List.mem_reverse.mp hc))
      (by decide)
    have h₂ := takeWhile_block (p := Char.isDigit)
      ((Nat.toDigits 10 n₂).reverse) 'p'
      ('s' :: 'e' :: 'R' :: e₂.data.reverse)
      (by intro c hc; exact toDigits_isDigit n₂ c (List.mem_reverse.mp hc))
      (by decide)
    rw [← h₁, ← h₂, hrev]
  have hdig : Nat.toDigits 10 n₁ = Nat.toDigits 10 n₂ :=
    List.reverse_injective htw
  calc n₁ = parseDigits (Nat.toDigits 10 n₁) := (parseDigits_toDigits n₁).symm
    _ = parseDigits (Nat.toDigits 10 n₂) := by rw [hdig]
    _ = n₂ := parseDigits_toDigits n₂

/-! Part 8: the session invariant -/

/-- Invariant maintained by every session of the `Space` correlator:
the request counter bounds all emitted identifiers, identifiers grow
strictly, every live listener belongs to the call that emitted the
like-named request, every settlement is correctly correlated, and no
call index occurs twice among live listeners and settlements. -/
structure SessionInv (s : SpaceState) : Prop where
  socket_true : s.socket = true
  calls_eq : s.calls = s.emitted.length
  ids_pos : ∀ r ∈ s.emitted, 0 < r.reqId
  ids_le : ∀ r ∈ s.emitted, r.reqId ≤ s.reqId
  ids_mono : (s.emitted.map Req.reqId).Pairwise (· < ·)
  listeners_ok : ∀ l ∈ s.listeners,
    ∃ r, s.emitted.get? l.2 = some r ∧ l.1 = respKey r.eventName r.reqId
  settled_ok : ∀ e ∈ s.settled, e.1 = e.2.1
  nodup_ids :
    (s.listeners.map Prod.snd ++ s.settled.map (fun e => e.1)).Nodup
  listeners_lt : ∀ l ∈ s.listeners, l.2 < s.calls
  settled_lt : ∀ e ∈ s.settled, e.1 < s.calls

theorem initState_inv : SessionInv initState := by
  constructor <;> simp [initState]

theorem wsCall_inv {s : SpaceState} (h : SessionInv s) (e : String)
    (args : List JSVal) : SessionInv (wsCall s e args) := by
  refine ⟨?_, ?_, ?_, ?_, ?_, ?_, ?_, ?_, ?_, ?_⟩
  · simpa [wsCall] using h.socket_true
  · simp [wsCall, h.calls_eq]
  · intro r hr
    rcases List.mem_append.mp hr with hr | hr
    · exact h.ids_pos r hr
    · rcases List.mem_singleton.mp hr with rfl
      simp [wsCall]
  · intro r hr
    rcases List.mem_append.mp hr with hr | hr
    · exact Nat.le_trans (h.ids_le r hr) (Nat.le_succ _)
    · rcases List.mem_singleton.mp hr with rfl
      simp [wsCall]
  · show ((s.emitted ++ [(⟨e, s.reqId + 1, args⟩ : Req)]).map Req.reqId).Pairwise _
    rw [List.map_append]
    refine List.pairwise_append.mpr ⟨h.ids_mono, List.pairwise_singleton _ _, ?_⟩
    intro a ha b hb
    rcases List.mem_map.mp ha with ⟨r, hr, rfl⟩
    rcases List.mem_singleton.mp hb with rfl
    exact Nat.lt_succ_of_le (h.ids_le r hr)
  · intro l hl
    rcases List.mem_append.mp hl with hl | hl
    · rcases h.listeners_ok l hl with ⟨r, hget, hkey⟩
      have hlen : l.2 < s.emitted.length := (List.get?_eq_some.mp hget).1
      refine ⟨r, ?_, hkey⟩
      show (s.emitted ++ [(⟨e, s.reqId + 1, args⟩ : Req)]).get? l.2 = some r
      rw [List.get?_append hlen]
      exact hget
    · rcases List.mem_singleton.mp hl with rfl
      refine ⟨⟨e, s.reqId + 1, args⟩, ?_, rfl⟩
      show (s.emitted ++ [(⟨e, s.reqId + 1, args⟩ : Req)]).get? s.calls = _
      rw [h.calls_eq]
      exact List.get?_concat_length _ _
  · exact h.settled_ok
  · show ((s.listeners ++ [(respKey e (s.reqId + 1), s.calls)]).map Prod.snd ++
      s.settled.map (fun e => e.1)).Nodup
    rw [List.map_append]
    simp only [List.map_cons, List.map_nil]
    rw [List.append_assoc, List.singleton_append, List.nodup_middle]
    refine List.nodup_cons.mpr ⟨?_, h.nodup_ids⟩
    intro hmem
    rcases List.mem_append.mp hmem with hmem | hmem
    · rcases List.mem_map.mp hmem with ⟨l, hl, hl2⟩
      exact absurd hl2 (Nat.ne_of_lt (h.listeners_lt l hl))
    · rcases List.mem_map.mp hmem with ⟨ev, hev, hev1⟩
      exact absurd hev1 (Nat.ne_of_lt (h.settled_lt ev hev))
  · intro l hl
    rcases List.mem_append.mp hl with hl | hl
    · exact Nat.lt_succ_of_lt (h.listeners_lt l hl)
    · rcases List.mem_singleton.mp hl with rfl
      exact Nat.lt_succ_self _
  · intro ev hev
    exact Nat.lt_succ_of_lt (h.settled_lt ev hev)

theorem bump_inv {s : SpaceState} (h : SessionInv s) :
    SessionInv { s with reqId := s.reqId + 1 } := by
  refine ⟨h.socket_true, h.calls_eq, h.ids_pos, ?_, h.ids_mono,
    h.listeners_ok, h.settled_ok, h.nodup_ids, h.listeners_lt, h.settled_lt⟩
  intro r hr
  exact Nat.le_trans (h.ids_le r hr) (Nat.le_succ _)

/-- A listener that matches the response key of the `j`-th emitted
request belongs to call `j`: the decimal identifier embedded in the key
determines the request, and call indices equal request indices. -/
theorem fired_callIdx {s : SpaceState} (h : SessionInv s) {j : Nat} {r : Req}
    (hj : s.emitted.get? j = some r) {l : String × Nat}
    (hl : l ∈ s.listeners) (hk : l.1 = respKey r.eventName r.reqId) :
    l.2 = j := by
  rcases h.listeners_ok l hl with ⟨r', hget, hkey⟩
  have hid : r'.reqId = r.reqId := respKey_id_inj (hkey.symm.trans hk)
  have hnod : (s.emitted.map Req.reqId).Nodup :=
    h.ids_mono.imp (fun hab => Nat.ne_of_lt hab)
  have h1 : (s.emitted.map Req.reqId).get? l.2 = some r.reqId := by
    rw [List.get?_map, hget]
    simp [hid]
  have h2 : (s.emitted.map Req.reqId).get? j = some r.reqId := by
    rw [List.get?_map, hj]
    simp
  have hlen : l.2 < (s.emitted.map Req.reqId).length := by
    rw [List.length_map]
    exact (List.get?_eq_some.mp hget).1
  apply List.getElem?_inj hlen hnod
  rw [← List.get?_eq_getElem?, ← List.get?_eq_getElem?, h1, h2]

theorem respond_inv {s : SpaceState} (h : SessionInv s) (j : Nat)
    (err result : JSVal) :
    SessionInv (stepOp s (.respond j err result)) := by
  cases hj : s.emitted.get? j with
  | none =>
    simpa only [stepOp, hj] using h
  | some r =>
    simp only [stepOp, hj, deliver]
    refine ⟨h.socket_true, h.calls_eq, h.ids_pos, h.ids_le, h.ids_mono,
      ?_, ?_, ?_, ?_, ?_⟩
    · intro l hl
      exact h.listeners_ok l (List.mem_filter.mp hl).1
    · intro ev hev
      rcases List.mem_append.mp hev with hev | hev
      · exact h.settled_ok ev hev
      · rcases List.mem_map.mp hev with ⟨l, hlf, rfl⟩
        have hl : l ∈ s.listeners := (List.mem_filter.mp hlf).1
        have hk : l.1 = respKey r.eventName r.reqId :=
          eq_of_beq (List.mem_filter.mp hlf).2
        exact fired_callIdx h hj hl hk
    · have hperm :
          ((s.listeners.filter (fun l => !(l.1 == respKey r.eventName r.reqId))).map
              Prod.snd ++
            (s.settled ++ (s.listeners.filter
                (fun l => l.1 == respKey r.eventName r.reqId)).map
              (fun l => (l.2, j, if err.truthy then Settled.rejected err
                else Settled.resolved result))).map (fun e => e.1)).Perm
          (s.listeners.map Prod.snd ++ s.settled.map (fun e => e.1)) := by
        rw [List.map_append, List.map_map]
        have hcomp :
            ((fun (e : Nat × Nat × Settled) => e.1) ∘
              (fun (l : String × Nat) => (l.2, j,
                if err.truthy then Settled.rejected err
                else Settled.resolved result))) = Prod.snd := by
          funext l
          rfl
        rw [hcomp]
        refine List.Perm.trans (List.Perm.append_left _ List.perm_append_comm) ?_
        rw [← List.append_assoc]
        refine List.Perm.append_right _ ?_
        refine List.Perm.trans List.perm_append_comm ?_
        rw [← List.map_append]
        exact (List.filter_append_perm _ s.listeners).map Prod.snd
      exact hperm.symm.nodup h.nodup_ids
    · intro l hl
      exact h.listeners_lt l (List.mem_filter.mp hl).1
    · intro ev hev
      rcases List.mem_append.mp hev with hev | hev
      · exact h.settled_lt ev hev
      · rcases List.mem_map.mp hev with ⟨l, hlf, rfl⟩
        exact h.listeners_lt l (List.mem_filter.mp hlf).1

theorem stepOp_inv {s : SpaceState} (h : SessionInv s) (op : TraceOp) :
    SessionInv (stepOp s op) := by
  cases op with
  | call e args => exact wsCall_inv h e args
  | openPage name => exact wsCall_inv (bump_inv h) _ _
  | push pageName version fullUpdates =>
    show SessionInv (pushUpdates s pageName version fullUpdates).1
    rw [pushUpdates, if_pos (by rw [h.socket_true])]
    exact wsCall_inv h _ _
  | respond j err result => exact respond_inv h j err result

theorem foldl_stepOp_inv (ops : List TraceOp) :
    ∀ s : SpaceState, SessionInv s → SessionInv (ops.foldl stepOp s) := by
  induction ops with
  | nil => intro s h; exact h
  | cons op ops ih =>
    intro s h
    exact ih (stepOp s op) (stepOp_inv h op)

theorem ctorState_inv : SessionInv ctorState :=
  wsCall_inv initState_inv _ _

theorem runTrace_inv (ops : List TraceOp) : SessionInv (runTrace ops) :=
  foldl_stepOp_inv ops ctorState ctorState_inv

/-- C1: over every session (every interleaving of correlated calls and
response arrivals, in any order), every response settles exactly the
promise of the call that allocated its request identifier, and no
promise is ever settled twice. -/
theorem correlator_routes_by_id (ops : List TraceOp) :
    correlated (runTrace ops) = true := by
  have h := runTrace_inv ops
  rw [correlated, Bool.and_eq_true]
  constructor
  · rw [List.all_eq_true]
    intro e he
    exact beq_iff_eq.mpr (h.settled_ok e he)
  · exact decide_eq_true h.nodup_ids.of_append_right

/-- C3: over every session, the request identifiers of the emitted
requests are strictly increasing, all above zero, and never reused. -/
theorem reqIds_strictly_increasing (ops : List TraceOp) :
    idsOk (runTrace ops) = true := by
  have h := runTrace_inv ops
  rw [idsOk, Bool.and_eq_true, Bool.and_eq_true]
  refine ⟨⟨decide_eq_true h.ids_mono, ?_⟩,
    decide_eq_true (h.ids_mono.imp (fun hab => Nat.ne_of_lt hab))⟩
  rw [List.all_eq_true]
  intro r hr
  exact decide_eq_true (h.ids_pos r hr)

/-- Responding to the request just emitted by a fresh `wsCall` settles
exactly the promise of that call: no older listener can match the new
response key, because every older identifier is strictly smaller. -/
theorem respond_to_new_call {s : SpaceState} (h : SessionInv s) (e : String)
    (args : List JSVal) (err result : JSVal) :
    (stepOp (wsCall s e args) (.respond s.emitted.length err result)).settled =
      s.settled ++ [(s.calls, s.emitted.length,
        if err.truthy then Settled.rejected err
        else Settled.resolved result)] := by
  have hget : (wsCall s e args).emitted.get? s.emitted.length =
      some ⟨e, s.reqId + 1, args⟩ := by
    show (s.emitted ++ [(⟨e, s.reqId + 1, args⟩ : Req)]).get? s.emitted.length = _
    exact List.get?_concat_length _ _
  rw [stepOp]
  rw [hget]
  show (deliver (wsCall s e args) (respKey e (s.reqId + 1))
    s.emitted.length err result).settled = _
  have hold : s.listeners.filter
      (fun l => l.1 == respKey e (s.reqId + 1)) = [] := by
    rw [List.filter_eq_nil]
    intro l hl
    rcases h.listeners_ok l hl with ⟨r', hget', hkey⟩
    intro hbeq
    have hkeq : l.1 = respKey e (s.reqId + 1) := eq_of_beq hbeq
    have hid : r'.reqId = s.reqId + 1 :=
      respKey_id_inj (hkey.symm.trans hkeq)
    have hmem : r' ∈ s.emitted := List.get?_mem hget'
    have := h.ids_le r' hmem
    omega
  show ((wsCall s e args).settled ++
    ((wsCall s e args).listeners.filter
      (fun l => l.1 == respKey e (s.reqId + 1))).map _) = _
  have hlist : (wsCall s e args).listeners.filter
      (fun l => l.1 == respKey e (s.reqId + 1)) =
      [(respKey e (s.reqId + 1), s.calls)] := by
    show ((s.listeners ++ [(respKey e (s.reqId + 1), s.calls)]).filter
      (fun l => l.1 == respKey e (s.reqId + 1))) = _
    rw [List.filter_append, hold]
    simp
  rw [hlist]
  rfl

/-- Response arrival leaves the emitted-request log unchanged. -/
theorem respond_emitted (s : SpaceState) (j : Nat) (err result : JSVal) :
    (stepOp s (.respond j err result)).emitted = s.emitted := by
  simp only [stepOp]
  cases hj : s.emitted.get? j with
  | none => rfl
  | some r => rfl

/-- C2 (amended): for every session and every fresh correlated call,
the arrival of its response settles its promise as a rejection
carrying the first response field when that field is truthy, and as a
resolution with the second field otherwise. -/
theorem wsCall_settles_by_truthiness (ops : List TraceOp) (e : String)
    (args : List JSVal) (err result : JSVal) :
    (runTrace (ops ++ [.call e args,
        .respond (runTrace ops).emitted.length err result])).settled =
      (runTrace ops).settled ++
        [((runTrace ops).calls, (runTrace ops).emitted.length,
          if err.truthy then Settled.rejected err
          else Settled.resolved result)] := by
  rw [runTrace, List.foldl_append]
  simp only [List.foldl_cons, List.foldl_nil]
  exact respond_to_new_call (runTrace_inv ops) e args err result

/-- C2 counterexample: the response error field `""` is non-null, yet
the promise resolves (with the second field) instead of failing,
because the code tests JavaScript truthiness, not nullness. -/
theorem nonNull_error_can_resolve :
    (runTrace [.call "page.readPage" [JSVal.str "x"],
        .respond 1 (JSVal.str "") (JSVal.num 7)]).settled =
      [(1, 1, Settled.resolved (JSVal.num 7))] ∧
    JSVal.str "" ≠ JSVal.null :=
  ⟨rfl, fun hcon => JSVal.noConfusion hcon⟩

/-- C6: with no transport attached `pushUpdates` returns `false` and
emits nothing and registers nothing; with a transport it emits exactly
one `page.pushUpdates` request carrying the page name, the version and
the serialized updates, and its promise resolves with the acceptance
result sent by the server. -/
theorem pushUpdates_transport (s : SpaceState) (ops : List TraceOp)
    (pageName : String) (version : Int) (us : List Upd) (result : JSVal) :
    pushUpdates { s with socket := false } pageName version us =
      ({ s with socket := false }, PushOutcome.noSocket) ∧
    (runTrace (ops ++ [.push pageName version us,
        .respond (runTrace ops).emitted.length JSVal.null result])).emitted =
      (runTrace ops).emitted ++
        [⟨"page.pushUpdates", (runTrace ops).reqId + 1,
          [JSVal.str pageName, JSVal.num version,
           JSVal.arr ((us.map serializeUpdate).map WireUpdate.toJS)]⟩] ∧
    (runTrace (ops ++ [.push pageName version us,
        .respond (runTrace ops).emitted.length JSVal.null result])).settled =
      (runTrace ops).settled ++
        [((runTrace ops).calls, (runTrace ops).emitted.length,
          Settled.resolved result)] := by
  have hpush : stepOp (runTrace ops) (.push pageName version us) =
      wsCall (runTrace ops) "page.pushUpdates"
        [JSVal.str pageName, JSVal.num version,
         JSVal.arr ((us.map serializeUpdate).map WireUpdate.toJS)] := by
    show (pushUpdates (runTrace ops) pageName version us).1 = _
    rw [pushUpdates, if_pos (by rw [(runTrace_inv ops).socket_true])]
  refine ⟨?_, ?_, ?_⟩
  · rw [pushUpdates]
    simp
  · rw [runTrace, List.foldl_append]
    simp only [List.foldl_cons, List.foldl_nil]
    show (stepOp (stepOp (runTrace ops) (.push pageName version us))
      (.respond (runTrace ops).emitted.length JSVal.null result)).emitted = _
    rw [respond_emitted, hpush]
    rfl
  · rw [runTrace, List.foldl_append]
    simp only [List.foldl_cons, List.foldl_nil]
    show (stepOp (stepOp (runTrace ops) (.push pageName version us))
      (.respond (runTrace ops).emitted.length JSVal.null result)).settled = _
    rw [hpush]
    have h := respond_to_new_call (runTrace_inv ops) "page.pushUpdates"
      [JSVal.str pageName, JSVal.num version,
       JSVal.arr ((us.map serializeUpdate).map WireUpdate.toJS)]
      JSVal.null result
    simpa using h

/-- C10: the constructor emits exactly one request, `page.listPages`
with request identifier 1 (the first of the session); a response with
a null error indicator resolves the promise of the constructor with
the payload; the continuation then replaces the page set entirely by the
received list and emits exactly one `pageListUpdated` carrying the new
set. -/
theorem ctor_lists_pages (payload : JSVal) (reg : RegistryState)
    (pages : List PageMeta) :
    ctorState.emitted = [⟨"page.listPages", 1, []⟩] ∧
    (runTrace [.respond 0 JSVal.null payload]).settled =
      [(0, 0, Settled.resolved payload)] ∧
    regStep reg (.listPagesResp pages) =
      { allPages := newSet pages,
        updatesEmitted := reg.updatesEmitted ++ [newSet pages] } := by
  refine ⟨rfl, ?_, rfl⟩
  have h := respond_to_new_call initState_inv "page.listPages" []
    JSVal.null payload
  simpa using h

/-- C7: creating a page and then deleting that name leaves no entry of
that name in the `listPages` snapshot, whatever the registry held
before. -/
theorem created_then_deleted_absent (s : RegistryState) (meta : PageMeta) :
    (listPagesSnapshot (regStep (regStep s (.pageCreated meta))
      (.pageDeleted meta.name))).all (fun m => m.name != meta.name) = true := by
  rw [List.all_eq_true]
  intro m hm
  exact (List.mem_filter.mp hm).2

/-- C8 counterexample: two `pageCreated` events whose metadata objects
are distinct but share the name `"a"` leave two entries named `"a"` in
the page set — per-name uniqueness fails. -/
theorem duplicate_names_possible :
    namesUnique (listPagesSnapshot (runReg
      [.pageCreated ⟨0, "a"⟩, .pageCreated ⟨1, "a"⟩])) = false := by
  rfl

/-- C8 (amended): after every sequence of registry-updating events the
page set holds each metadata object at most once (JS `Set` semantics:
uniqueness by object identity, not by page name). -/
theorem registry_nodup_by_identity (ops : List RegOp) :
    (listPagesSnapshot (runReg ops)).Nodup := by
  have hstep : ∀ (s : RegistryState) (op : RegOp), s.allPages.Nodup →
      (regStep s op).allPages.Nodup := by
    intro s op hs
    cases op with
    | listPagesResp pages =>
      show (newSet pages).Nodup
      rw [newSet]
      have haux : ∀ (ps : List PageMeta) (acc : List PageMeta), acc.Nodup →
          (ps.foldl setAdd acc).Nodup := by
        intro ps
        induction ps with
        | nil => intro acc hacc; exact hacc
        | cons p ps ih =>
          intro acc hacc
          refine ih (setAdd acc p) ?_
          rw [setAdd]
          by_cases hmem : p ∈ acc
          · rw [if_pos hmem]; exact hacc
          · rw [if_neg hmem]
            have : acc ++ [p] = acc ++ p :: [] := rfl
            rw [this, List.nodup_middle]
            exact List.nodup_cons.mpr (by simpa using ⟨hmem, hacc⟩)
      exact haux pages [] (List.nodup_nil)
    | pageCreated meta =>
      show (setAdd s.allPages meta).Nodup
      rw [setAdd]
      by_cases hmem : meta ∈ s.allPages
      · rw [if_pos hmem]; exact hs
      · rw [if_neg hmem]
        have : s.allPages ++ [meta] = s.allPages ++ meta :: [] := rfl
        rw [this, List.nodup_middle]
        exact List.nodup_cons.mpr (by simpa using ⟨hmem, hs⟩)
    | pageDeleted name =>
      exact hs.filter _
  have hfold : ∀ (l : List RegOp) (s : RegistryState), s.allPages.Nodup →
      (l.foldl regStep s).allPages.Nodup := by
    intro l
    induction l with
    | nil => intro s hs; exact hs
    | cons op l ih => intro s hs; exact ih _ (hstep s op hs)
  exact hfold ops regInit (List.nodup_nil)

/-- C9: `indexBatchSet` issues one `index.set` request per entry in
list order; when the response of the `i`-th call is the first truthy
error,
the entries before `i` are issued and acknowledged, entry `i` is
issued but not acknowledged, the entries after `i` are never
attempted, and the overall call rejects with the `i`-th error. -/
theorem indexBatchSet_failstop (resp : Nat → JSVal × JSVal)
    (pageName : String) (kvs : List KV) (i : Nat)
    (hi : i < kvs.length)
    (hok : ∀ j, j < i → (resp j).1.truthy = false)
    (hfail : (resp i).1.truthy = true) :
    indexBatchSet resp pageName kvs =
      ((kvs.take (i + 1)).map (indexSetReq pageName), kvs.take i,
        Except.error (resp i).1) := by
  have hgo : ∀ (l : List KV) (i0 : Nat) (k : Nat)
      (issued : List (String × List JSVal)) (acked : List KV),
      k < l.length →
      (∀ j, j < k → (resp (i0 + j)).1.truthy = false) →
      (resp (i0 + k)).1.truthy = true →
      indexBatchSetGo resp pageName l i0 issued acked =
        (issued ++ (l.take (k + 1)).map (indexSetReq pageName),
          acked ++ l.take k, Except.error (resp (i0 + k)).1) := by
    intro l
    induction l with
    | nil =>
      intro i0 k issued acked hk h1 h2
      simp at hk
    | cons kv rest ih =>
      intro i0 k issued acked hk hoks hfails
      cases k with
      | zero =>
        rw [indexBatchSetGo]
        have : (resp i0).1.truthy = true := by simpa using hfails
        simp [this]
      | succ k' =>
        rw [indexBatchSetGo]
        have hok0 : (resp i0).1.truthy = false := by
          have := hoks 0 (Nat.succ_pos k')
          simpa using this
        simp only [hok0, Bool.false_eq_true, if_false]
        have hrec := ih (i0 + 1) k' (issued ++ [indexSetReq pageName kv])
          (acked ++ [kv]) (by simpa using Nat.lt_of_succ_lt_succ hk)
          (fun j hj => by
            have := hoks (j + 1) (Nat.succ_lt_succ hj)
            have harith : i0 + (j + 1) = i0 + 1 + j := by omega
            rwa [harith] at this)
          (by
            have harith : i0 + 1 + k' = i0 + (k' + 1) := by omega
            rwa [harith])
        rw [hrec]
        have harith : i0 + 1 + k' = i0 + (k' + 1) := by omega
        rw [harith]
        simp [List.take]
  have h := hgo kvs 0 i [] [] hi (fun j hj => by simpa using hok j hj)
    (by simpa using hfail)
  simpa [indexBatchSet] using h

/-- Concrete response oracle for exercising `indexBatchSet`: the
second call (index 1) fails, all others succeed. -/
def wResp : Nat → JSVal × JSVal := fun j =>
  if j = 1 then (JSVal.str "boom", JSVal.null) else (JSVal.null, JSVal.null)

/-- Concrete three-entry batch. -/
def wKvs : List KV :=
  [⟨"k1", JSVal.num 1⟩, ⟨"k2", JSVal.num 2⟩, ⟨"k3", JSVal.num 3⟩]

/-- Witness for `indexBatchSet_failstop`: three entries, the second
call fails; the first entry is applied, the second and third are not,
and the call rejects with the error of the second entry. -/
theorem indexBatchSet_failstop_witness :
    1 < wKvs.length ∧ (wResp 1).1.truthy = true ∧
    indexBatchSet wResp "p" wKvs =
      ((wKvs.take 2).map (indexSetReq "p"), wKvs.take 1,
        Except.error (wResp 1).1) :=
  ⟨by decide, rfl,
    indexBatchSet_failstop wResp "p" wKvs 1 (by decide) (by decide) rfl⟩

/-- C4 (evaluation at the failing input): pushing an update with one
cursor effect of raw value 5 places that value under the wire field
`cursors`, but the pull-side deserialization reads the wire field
`effects`, so the round-tripped update carries no cursor effects at
all, instead of the reconstructed effect the claim expects; client
identifier and change set do survive the round trip. -/
theorem pushPull_drops_cursor_effects :
    (serializeUpdate ⟨"c", ⟨JSVal.num 1⟩, some [⟨JSVal.num 5⟩]⟩).cursors =
      some [JSVal.num 5] ∧
    (deserializeUpdate (serializeUpdate
      ⟨"c", ⟨JSVal.num 1⟩, some [⟨JSVal.num 5⟩]⟩)).effects = none ∧
    (deserializeUpdate (serializeUpdate
      ⟨"c", ⟨JSVal.num 1⟩, some [⟨JSVal.num 5⟩]⟩)).clientID = "c" ∧
    (deserializeUpdate (serializeUpdate
      ⟨"c", ⟨JSVal.num 1⟩, some [⟨JSVal.num 5⟩]⟩)).changes =
      ChangeSet.fromJSON (JSVal.num 1) ∧
    (none : Option (List StateEff)) ≠ some [cursorEffectOf (JSVal.num 5)] :=
  ⟨rfl, rfl, rfl, rfl, fun hcon => Option.noConfusion hcon⟩

/-- C5 (evaluation of the emitted request): `indexDeletePrefixForPage`
emits exactly one `index.deletePrefixForPage` request, but its
argument list after the request identifier holds only the key prefix —
the page name is dropped, whatever its value. -/
theorem indexDeletePrefixForPage_drops_pageName (s : SpaceState)
    (pageName keyPfx : String) :
    (indexDeletePrefixForPage s pageName keyPfx).emitted =
      s.emitted ++ [⟨"index.deletePrefixForPage", s.reqId + 1,
        [JSVal.str keyPfx]⟩] :=
  rfl
